import Mathlib

/-!
Verification of `kopf/structs/lastseen.py` (last-handled-state tracking).

The Python module works on arbitrary nested JSON-like documents (`dict`,
`list`, `str`, `int`, `bool`, `None`).  We embed such documents as the
inductive type `Json`; a Python `dict` is an insertion-ordered association
list (`Obj`).  Python's `None` is `Json.null`.  All bodies handled by the
module are mappings at top level (`bodies.Body` is a `Mapping`), so the
module's functions take and return `Obj`.

Numbers are embedded as `Int` (the documents the module stores and compares
are Kubernetes object fragments; the embedding does not model floats).
`copy.deepcopy` is the identity in this pure value semantics: a deep copy
of a value is the value itself, and the no-aliasing concern it addresses in
Python does not arise here.

Python edge cases in which the source raises `TypeError`/`AttributeError`
because an intermediate value is not a mapping (for example a body whose
`metadata` entry is a string, on which `.get` is called) are embedded as
no-op/skip branches; no claim depends on such inputs, and on every input on
which the Python code returns normally the embedding computes the same
value.
-/

/-- A JSON-like document value, mirroring what Python's `json` module and the
kopf body dictionaries hold: `None`, booleans, integers, strings, lists and
(insertion-ordered) string-keyed mappings. -/
inductive Json where
  | null
  | bool (b : Bool)
  | num (n : Int)
  | str (s : String)
  | arr (xs : List Json)
  | obj (kvs : List (String × Json))

/-- A Python dictionary with string keys: an insertion-ordered association
list.  Keys are unique in every dictionary the source constructs. -/
abbrev Obj := List (String × Json)

/-- Python `d.get(k)` / `d[k]`: the value stored under the first occurrence of
key `k`, if any. -/
def objGet : Obj → String → Option Json
  | [], _ => none
  | (k', v) :: rest, k => if k' = k then some v else objGet rest k

/-- Python `del d[k]` (on a dictionary with unique keys): remove the entry for
`k`, keeping the order of the remaining entries. -/
def objDel : Obj → String → Obj
  | [], _ => []
  | (k', v) :: rest, k => if k' = k then objDel rest k else (k', v) :: objDel rest k

/-- Python `d[k] = v`: replace the value at the first occurrence of `k` in
place, or append a new entry at the end (insertion order). -/
def objSet : Obj → String → Json → Obj
  | [], k, v => [(k, v)]
  | (k', v') :: rest, k, v => if k' = k then (k, v) :: rest else (k', v') :: objSet rest k v

/-- Python truth-value test (`not x` is `pyFalsy x`): `None`, `False`, `0`,
the empty string, the empty list and the empty dict are falsy. -/
def pyFalsy : Json → Bool
  | .null => true
  | .bool b => !b
  | .num n => n == 0
  | .str s => s.isEmpty
  | .arr xs => xs.isEmpty
  | .obj kvs => kvs.isEmpty

mutual
/-- Python structural equality `==` on document values: dictionaries compare
by key lookup (insertion order is irrelevant); everything else compares
structurally.  Mirrors CPython's `dict_equal`: equal sizes, and every entry
of the left dict is present with an equal value in the right one. -/
def pyEq : Json → Json → Bool
  | .null, .null => true
  | .bool a, .bool b => a == b
  | .num a, .num b => a == b
  | .str a, .str b => a == b
  | .arr a, .arr b => pyEqList a b
  | .obj a, .obj b => a.length == b.length && pyEqObj a b
  | _, _ => false
/-- Elementwise `pyEq` on lists (Python list equality). -/
def pyEqList : List Json → List Json → Bool
  | [], [] => true
  | x :: xs, y :: ys => pyEq x y && pyEqList xs ys
  | _, _ => false
/-- Every entry of the left dict is present with a `pyEq`-equal value in the
right dict. -/
def pyEqObj : Obj → Obj → Bool
  | [], _ => true
  | (k, v) :: rest, b =>
    (match objGet b k with
     | some w => pyEq v w
     | none => false) && pyEqObj rest b
end

/-! ## Annotation keys (`BASE_LAST_SEEN_ANNOTATION`, `last_seen_annotation`)

The Python constant `BASE_LAST_SEEN_ANNOTATION` and function
`last_seen_annotation(prefix)` are embedded under brace-free names: the
constant as `baseLastSeenKey`, the function as `lastSeenKey` (the optional
`prefix` argument is `pfx : Option String`; Python's falsy test on the
prefix covers both `None` and the empty string). -/

/-- The annotation name base for the last stored state of the resource
(Python `BASE_LAST_SEEN_ANNOTATION`). -/
def baseLastSeenKey : String := "kopf.zalando.org/last-handled-configuration"

/-- The well-known `kubectl` bookkeeping annotation stripped from essences. -/
def kubectlKey : String := "kubectl.kubernetes.io/last-applied-configuration"

/-- Python `last_seen_annotation(prefix)`: `"<prefix>." ++ base` when the
prefix is truthy (a non-empty string), else the bare base key. -/
def lastSeenKey (pfx : Option String) : String :=
  match pfx with
  | some p => if p.isEmpty then baseLastSeenKey else p ++ (".") ++ baseLastSeenKey
  | none => baseLastSeenKey

/-! ## Field specs and cherry-picking (`kopf.structs.dicts`)

`dicts.FieldSpec`, `dicts.resolve`, `dicts.ensure` and `dicts.cherrypick`
live in `kopf/structs/dicts.py`, which is not part of the source under
verification; only their call sites in `lastseen.py` are.  They are
modelled from the spec (see the doc comments below). -/

/-- A dotted field path such as `"status.phase"` (kopf `dicts.FieldSpec`). -/
abbrev FieldSpec := String

/-- Split a character list on `'.'` (the semantics of Python
`str.split('.')`): `""` yields `[""]`, and empty segments are kept. -/
def splitDotsAux : List Char → List Char → List String
  | [], acc => [String.mk acc.reverse]
  | c :: rest, acc =>
    if c = '.' then String.mk acc.reverse :: splitDotsAux rest []
    else splitDotsAux rest (c :: acc)

/-- Modelled from the spec: a `FieldSpec` is "a dotted path (e.g.
`status.phase`)"; parsing splits it into its dot-separated segments
(kopf `dicts.parse_field` on a string). -/
def parseFieldSpec (f : FieldSpec) : List String :=
  splitDotsAux f.data []

/-- Modelled from the spec: resolving a dotted path inside a document walks
the mappings along the path; a path "pointing to a non-existent location" is
not an error and yields nothing (kopf `dicts.resolve`, whose `KeyError` is
swallowed by `cherrypick`). -/
def resolvePath : Json → List String → Option Json
  | v, [] => some v
  | .obj o, k :: rest =>
    (match objGet o k with
     | some w => resolvePath w rest
     | none => none)
  | _, _ :: _ => none

/-- Modelled from the spec: writing a value under a dotted path into a
destination mapping, "creating intermediate containers as needed" (kopf
`dicts.ensure`).  An intermediate value that is not a mapping is replaced by
a fresh one. -/
def ensurePath (o : Obj) : List String → Json → Obj
  | [], _ => o
  | [k], v => objSet o k v
  | k :: k' :: rest, v =>
    let child : Obj :=
      match objGet o k with
      | some (.obj c) => c
      | _ => []
    objSet o k (.obj (ensurePath child (k' :: rest) v))

/-- Modelled from the spec: selective re-inclusion of the listed dotted paths
from the source document into the destination, deep-copied; unresolvable
paths contribute nothing (kopf `dicts.cherrypick` with
`picker=copy.deepcopy`). -/
def cherrypick (src : Obj) (dst : Obj) (fields : List FieldSpec) : Obj :=
  fields.foldl
    (fun d f =>
      match resolvePath (.obj src) (parseFieldSpec f) with
      | some v => ensurePath d (parseFieldSpec f) v
      | none => d)
    dst

/-! ## The essence extractor (`get_essence`) -/

/-- The annotation-stripping loop of `get_essence`: from
`essence['metadata']['annotations']` (when that path holds mappings) delete
the tracking annotation for the given key and the well-known `kubectl`
annotation.  Mirrors the in-place `del` loop of the source. -/
def stripGarbageAnns (e : Obj) (annKey : String) : Obj :=
  match objGet e ("metadata") with
  | some (.obj m) =>
    (match objGet m ("annotations") with
     | some (.obj anns) =>
       let anns' := anns.filter fun kv => !(kv.1 == annKey || kv.1 == kubectlKey)
       objSet e ("metadata") (.obj (objSet m ("annotations") (.obj anns')))
     | _ => e)
  | _ => e

/-- The first cleanup `if` of `get_essence`: drop a now-empty (Python-falsy)
`metadata.annotations` entry. -/
def pruneAnns (e : Obj) : Obj :=
  match objGet e ("metadata") with
  | some (.obj m) =>
    (match objGet m ("annotations") with
     | some a =>
       if pyFalsy a then objSet e ("metadata") (.obj (objDel m ("annotations"))) else e
     | none => e)
  | _ => e

/-- The second cleanup `if` of `get_essence`: drop a now-empty `metadata`. -/
def pruneMeta (e : Obj) : Obj :=
  match objGet e ("metadata") with
  | some md => if pyFalsy md then objDel e ("metadata") else e
  | none => e

/-- The third cleanup `if` of `get_essence`: drop a now-empty `status`. -/
def pruneStatus (e : Obj) : Obj :=
  match objGet e ("status") with
  | some st => if pyFalsy st then objDel e ("status") else e
  | none => e

/-- The final cleanup of `get_essence`: the three `if`s in source order. -/
def pruneEmpties (e : Obj) : Obj :=
  pruneStatus (pruneMeta (pruneAnns e))

/-- Python `get_essence(body, prefix, extra_fields)`: extract only the fields
relevant for state comparison.  Deletes the identity fields `apiVersion` and
`kind` and the whole `metadata` and `status` stanzas; cherry-picks
`metadata.labels` and `metadata.annotations` back from the original body;
strips the tracking and `kubectl` annotations; restores the whitelisted
extra fields from the original body; prunes stanzas that ended up empty. -/
def get_essence (body : Obj) (pfx : Option String) (extra : List FieldSpec) : Obj :=
  let e := objDel (objDel (objDel (objDel body ("apiVersion")) ("kind")) ("metadata")) ("status")
  let e := cherrypick body e [("metadata.labels"), ("metadata.annotations")]
  let e := stripGarbageAnns e (lastSeenKey pfx)
  let e := cherrypick body e extra
  pruneEmpties e

/-! ## The essence store (`has_essence_stored`, `retrieve_essence`) -/

/-- Reader for `x['metadata']['annotations']` with Python's
`.get(..., {})` defaults: the annotations mapping of a body, an essence or a
patch, or `[]` when the path is absent (or does not hold mappings). -/
def annsOf (body : Obj) : Obj :=
  match objGet body ("metadata") with
  | some (.obj m) =>
    (match objGet m ("annotations") with
     | some (.obj a) => a
     | _ => [])
  | _ => []

/-- The single annotation slot `x['metadata']['annotations'][k]`, read with
defaults: `none` when any step of the path is absent. -/
def annSlotGet (x : Obj) (k : String) : Option Json :=
  objGet (annsOf x) k

/-- Python `has_essence_stored(body, prefix)`: whether the tracking
annotation key is present in `body['metadata']['annotations']`. -/
def has_essence_stored (body : Obj) (pfx : Option String) : Bool :=
  (annSlotGet body (lastSeenKey pfx)).isSome

/-- The failure modes of `retrieve_essence`/`refresh_essence`:
`json.JSONDecodeError` on an unparsable stored value, and Python's
`TypeError` when a value of an unexpected type is handed to `json`. -/
inductive PyErr where
  | parseError
  | typeError

/-! ## The serialization format (Python `json.dumps` / `json.loads`)

`lastseen.py` serializes essences with `json.dumps` and parses stored
annotation values with `json.loads`; both come from the Python standard
library.  The embedding below implements that codec on the value domain the
module stores: `dumps` renders with the default separators `", "` and
`": "`, escapes the short-form control characters exactly as Python's
encoder does, and renders integers in decimal; `loads` is a total
recursive-descent parser for that output (it additionally tolerates
whitespace wherever Python's decoder does).  Characters that Python would
`\uXXXX`-escape are emitted raw and accepted raw, which preserves the
round-trip contract this module relies on. -/

/-- The `'\x7b'` character (an opening curly brace). -/
def lbraceChar : Char := Char.ofNat 123

/-- The `'\x7d'` character (a closing curly brace). -/
def rbraceChar : Char := Char.ofNat 125

/-- JSON insignificant whitespace. -/
def isWsChar (c : Char) : Bool := c == ' ' || c == '\n' || c == '\t' || c == '\r'

/-- A decimal digit character. -/
def isDigitChar (c : Char) : Bool := 48 ≤ c.toNat && c.toNat ≤ 57

/-- Skip leading insignificant whitespace. -/
def skipWs : List Char → List Char
  | [] => []
  | c :: rest => if isWsChar c then skipWs rest else c :: rest

/-- The digit character for `d < 10`. -/
def digitChar (d : Nat) : Char := Char.ofNat (48 + d)

/-- The decimal digit characters of `n`, most significant first. -/
def dumpNat (n : Nat) : List Char :=
  if n = 0 then ['0'] else ((Nat.digits 10 n).reverse.map digitChar)

/-- An integer as Python renders it: optional minus sign, then decimal. -/
def dumpInt (i : Int) : List Char :=
  if i < 0 then '-' :: dumpNat i.natAbs else dumpNat i.natAbs

/-- One character, JSON-escaped the way Python's encoder escapes it
(short forms only; everything else is emitted raw). -/
def escapeChar (c : Char) : List Char :=
  if c = '"' then ['\\', '"']
  else if c = '\\' then ['\\', '\\']
  else if c = '\n' then ['\\', 'n']
  else if c = '\t' then ['\\', 't']
  else if c = '\r' then ['\\', 'r']
  else if c = Char.ofNat 8 then ['\\', 'b']
  else if c = Char.ofNat 12 then ['\\', 'f']
  else [c]

/-- JSON-escape a character list. -/
def escapeChars : List Char → List Char
  | [] => []
  | c :: rest => escapeChar c ++ escapeChars rest

/-- A string literal: quote, escaped body, quote. -/
def dumpStr (s : String) : List Char := '"' :: (escapeChars s.data ++ ['"'])

mutual
/-- Render a value as Python's `json.dumps` does (default separators). -/
def Json.dumpChars : Json → List Char
  | .null => 'n' :: 'u' :: 'l' :: 'l' :: []
  | .bool true => 't' :: 'r' :: 'u' :: 'e' :: []
  | .bool false => 'f' :: 'a' :: 'l' :: 's' :: 'e' :: []
  | .num n => dumpInt n
  | .str s => dumpStr s
  | .arr xs => '[' :: Json.dumpItems xs
  | .obj kvs => lbraceChar :: Json.dumpFields kvs
/-- The items of an array, followed by the closing bracket. -/
def Json.dumpItems : List Json → List Char
  | [] => [']']
  | x :: xs => Json.dumpChars x ++ Json.dumpSep xs
/-- Continuation of an array: `", "` before each further item. -/
def Json.dumpSep : List Json → List Char
  | [] => [']']
  | x :: xs => ',' :: ' ' :: (Json.dumpChars x ++ Json.dumpSep xs)
/-- The members of an object, followed by the closing brace. -/
def Json.dumpFields : Obj → List Char
  | [] => [rbraceChar]
  | (k, v) :: rest => dumpStr k ++ ':' :: ' ' :: (Json.dumpChars v ++ Json.dumpFieldSep rest)
/-- Continuation of an object: `", "` before each further member. -/
def Json.dumpFieldSep : Obj → List Char
  | [] => [rbraceChar]
  | (k, v) :: rest =>
    ',' :: ' ' :: (dumpStr k ++ ':' :: ' ' :: (Json.dumpChars v ++ Json.dumpFieldSep rest))
end

/-- Python `json.dumps` on this value domain. -/
def Json.dumps (v : Json) : String := String.mk (Json.dumpChars v)

/-- Undo one short-form escape. -/
def unescapeChar (c : Char) : Option Char :=
  if c = '"' then some '"'
  else if c = '\\' then some '\\'
  else if c = '/' then some '/'
  else if c = 'n' then some '\n'
  else if c = 't' then some '\t'
  else if c = 'r' then some '\r'
  else if c = 'b' then some (Char.ofNat 8)
  else if c = 'f' then some (Char.ofNat 12)
  else none

/-- Parse a string body after the opening quote, undoing escapes; yields the
body's characters and the input after the closing quote. -/
def parseStrAux : List Char → Option (List Char × List Char)
  | [] => none
  | '"' :: rest => some ([], rest)
  | '\\' :: [] => none
  | '\\' :: e :: rest2 =>
    (match unescapeChar e with
     | some u => (parseStrAux rest2).map fun p => (u :: p.1, p.2)
     | none => none)
  | c :: rest => (parseStrAux rest).map fun p => (c :: p.1, p.2)

/-- Consume a run of decimal digits, accumulating their value. -/
def parseDigitsAux (acc : Nat) : List Char → Nat × List Char
  | [] => (acc, [])
  | c :: rest =>
    if isDigitChar c then parseDigitsAux (acc * 10 + (c.toNat - 48)) rest
    else (acc, c :: rest)

mutual
/-- Parse one value (recursion bounded by `fuel`; a fuel of one more than
the input length always suffices, see `Json.loads`). -/
def parseVal : Nat → List Char → Option (Json × List Char)
  | 0, _ => none
  | fuel + 1, cs =>
    match skipWs cs with
    | [] => none
    | c :: rest =>
      if c = 'n' then
        match rest with
        | 'u' :: 'l' :: 'l' :: r => some (.null, r)
        | _ => none
      else if c = 't' then
        match rest with
        | 'r' :: 'u' :: 'e' :: r => some (.bool true, r)
        | _ => none
      else if c = 'f' then
        match rest with
        | 'a' :: 'l' :: 's' :: 'e' :: r => some (.bool false, r)
        | _ => none
      else if c = '"' then
        match parseStrAux rest with
        | some (s, r) => some (.str (String.mk s), r)
        | none => none
      else if c = '[' then
        match skipWs rest with
        | [] => none
        | c2 :: r2 =>
          if c2 = ']' then some (.arr [], r2)
          else
            match parseItems fuel (c2 :: r2) with
            | some (xs, r3) => some (.arr xs, r3)
            | none => none
      else if c = lbraceChar then
        match skipWs rest with
        | [] => none
        | c2 :: r2 =>
          if c2 = rbraceChar then some (.obj [], r2)
          else
            match parseFields fuel (c2 :: r2) with
            | some (kvs, r3) => some (.obj kvs, r3)
            | none => none
      else if c = '-' then
        match rest with
        | [] => none
        | d :: r2 =>
          if isDigitChar d then
            let p := parseDigitsAux 0 (d :: r2)
            some (.num (-(p.1 : Int)), p.2)
          else none
      else if isDigitChar c then
        let p := parseDigitsAux 0 (c :: rest)
        some (.num ((p.1 : Int)), p.2)
      else none
/-- Parse the one-or-more comma-separated items of a non-empty array, and
the closing bracket. -/
def parseItems : Nat → List Char → Option (List Json × List Char)
  | 0, _ => none
  | fuel + 1, cs =>
    match parseVal fuel cs with
    | none => none
    | some (v, r) =>
      match skipWs r with
      | [] => none
      | c :: r2 =>
        if c = ',' then
          match parseItems fuel r2 with
          | some (xs, r3) => some (v :: xs, r3)
          | none => none
        else if c = ']' then some ([v], r2)
        else none
/-- Parse the one-or-more comma-separated members of a non-empty object, and
the closing brace. -/
def parseFields : Nat → List Char → Option (Obj × List Char)
  | 0, _ => none
  | fuel + 1, cs =>
    match skipWs cs with
    | [] => none
    | c :: r =>
      if c = '"' then
        match parseStrAux r with
        | none => none
        | some (k, r1) =>
          match skipWs r1 with
          | [] => none
          | c1 :: r2 =>
            if c1 = ':' then
              match parseVal fuel r2 with
              | none => none
              | some (v, r3) =>
                match skipWs r3 with
                | [] => none
                | c2 :: r4 =>
                  if c2 = ',' then
                    match parseFields fuel r4 with
                    | some (kvs, r5) => some ((String.mk k, v) :: kvs, r5)
                    | none => none
                  else if c2 = rbraceChar then some ([(String.mk k, v)], r4)
                  else none
            else none
      else none
end

/-- Python `json.loads` on this value domain: parse a complete document,
requiring only whitespace after it. -/
def Json.loads (s : String) : Option Json :=
  match parseVal (s.data.length + 1) s.data with
  | some (v, r) => if (skipWs r).isEmpty then some v else none
  | none => none

/-! ## The essence store, continued (`retrieve_essence`) -/

/-- Python `retrieve_essence(body, prefix)`: `None` when no essence is
stored; otherwise the stored annotation string parsed by `json.loads`, with
a parse failure propagated to the caller (and a `TypeError` when the stored
slot does not hold a string). -/
def retrieve_essence (body : Obj) (pfx : Option String) : Except PyErr Json :=
  if has_essence_stored body pfx then
    match annSlotGet body (lastSeenKey pfx) with
    | some (.str s) =>
      (match Json.loads s with
       | some v => .ok v
       | none => .error .parseError)
    | _ => .error .typeError
  else .ok .null

/-! ## The change detector (`refresh_essence`) -/

/-- The patch mutation of `refresh_essence`:
`patch.setdefault('metadata', {}).setdefault('annotations', {})[k] = val`.
Fails with a `TypeError` when an existing `metadata` or `annotations` entry
of the patch is not a mapping (Python would raise `AttributeError` there). -/
def patchStageAnn (patch : Obj) (k : String) (val : String) : Except PyErr Obj :=
  match (objGet patch ("metadata")).getD (.obj []) with
  | .obj m =>
    (match (objGet m ("annotations")).getD (.obj []) with
     | .obj a =>
       .ok (objSet patch ("metadata")
             (.obj (objSet m ("annotations") (.obj (objSet a k (.str val))))))
     | _ => .error .typeError)
  | _ => .error .typeError

/-- Well-formedness of a patch accumulator for annotation staging: its
`metadata` entry, when present, is a mapping, and so is the `annotations`
entry inside it.  This is the "nested-mapping builder" interface the spec
requires of the caller-supplied Patch. -/
def patchWF (patch : Obj) : Bool :=
  match objGet patch ("metadata") with
  | none => true
  | some (.obj m) =>
    (match objGet m ("annotations") with
     | none => true
     | some (.obj _) => true
     | some _ => false)
  | some _ => false

/-- Python `refresh_essence(body=..., patch=..., extra_fields=...,
prefix=...)`: retrieve the stored essence, compute the fresh one, and if
they differ under Python `==`, stage the serialized fresh essence into the
patch under the tracking annotation key. -/
def refresh_essence (body : Obj) (patch : Obj) (extra : List FieldSpec)
    (pfx : Option String) : Except PyErr Obj :=
  match retrieve_essence body pfx with
  | .error e => .error e
  | .ok old =>
    if pyEq (.obj (get_essence body pfx extra)) old then .ok patch
    else patchStageAnn patch (lastSeenKey pfx) (Json.dumps (.obj (get_essence body pfx extra)))

/-- Reader for one entry of `x['metadata']` (when `metadata` is present and
a mapping): used to state frame properties of the patch mutation. -/
def mdGet (x : Obj) (k : String) : Option Json :=
  match objGet x ("metadata") with
  | some (.obj m) => objGet m k
  | _ => none

/-! ## Auxiliary predicates and concrete test documents -/

/-- An extra-field path that does not start at one of the top-level keys the
extractor is supposed to exclude or that hold the re-admitted metadata: the
restriction under which the bookkeeping-exclusion invariant survives the
extra-field cherry-pick (see the corrected claim C1). -/
def goodField (f : FieldSpec) : Prop :=
  (parseFieldSpec f).head? ≠ some ("apiVersion")
  ∧ (parseFieldSpec f).head? ≠ some ("kind")
  ∧ (parseFieldSpec f).head? ≠ some ("metadata")

instance (f : FieldSpec) : Decidable (goodField f) := by
  unfold goodField; infer_instance

/-- The input after a rendered number may not begin with a further digit
(every separator the renderer emits satisfies this). -/
def noDigitHead : List Char → Bool
  | [] => true
  | c :: _ => !(isDigitChar c)

/-- A body whose tracking annotation stores the text `"null"`. -/
def cBodyAnnNull : Obj :=
  [(("metadata"), .obj [(("annotations"), .obj [((baseLastSeenKey), .str ("null"))])])]

/-- A body whose prefixed tracking annotation stores the text `"null"`. -/
def cBodyAnnNullP : Obj :=
  [(("metadata"), .obj [(("annotations"), .obj [((lastSeenKey (some ("p"))), .str ("null"))])])]

/-- A body whose tracking annotation stores unparsable text. -/
def cBodyBadAnn : Obj :=
  [(("metadata"), .obj [(("annotations"), .obj
    [((baseLastSeenKey), .str ("\x7bnot valid\x7d"))])])]

/-- A body whose tracking annotation stores exactly the serialization of its
own essence (`\x7b"spec": "a"\x7d`). -/
def cBodySelf : Obj :=
  [(("spec"), .str ("a")),
   (("metadata"), .obj [(("annotations"), .obj
     [((baseLastSeenKey), .str (Json.dumps (.obj [(("spec"), .str ("a"))])))])])]

/-- A small body with bookkeeping fields, garbage annotations and a user
annotation, for the exclusion-invariant witness. -/
def cBodyFull : Obj :=
  [(("apiVersion"), .str ("v1")),
   (("kind"), .str ("Pod")),
   (("metadata"), .obj [(("annotations"), .obj
     [((baseLastSeenKey), .str ("old")),
      (("user"), .str ("u")),
      ((kubectlKey), .str ("k"))])]),
   (("spec"), .str ("s"))]

/-- A body with `metadata.labels = \x7b\x7d` and no other metadata. -/
def cBodyEmptyLabels : Obj :=
  [(("metadata"), .obj [(("labels"), .obj [])]), (("spec"), .str ("s"))]

/-- A body with a `status.phase` of `"Running"` among other status content. -/
def cBodyStatus : Obj :=
  [(("status"), .obj [(("phase"), .str ("Running")), (("junk"), .str ("j"))]),
   (("spec"), .str ("s"))]

/-- A body with only a `spec`, for the patch-staging witnesses. -/
def cBodySpec : Obj := [(("spec"), .str ("x"))]

/-- A patch with one unrelated pending entry. -/
def cPatchOther : Obj := [(("other"), .str ("keep"))]

/-- The patch `cPatchOther` after the tracking annotation of `cBodySpec` has
been staged into it. -/
def cPatchOtherStaged : Obj :=
  [(("other"), .str ("keep")),
   (("metadata"), .obj [(("annotations"), .obj
     [((baseLastSeenKey), .str (Json.dumps (.obj [(("spec"), .str ("x"))])))])])]

/-! # Theorems

First the generic dictionary lemmas, then the pipeline lemmas for
`get_essence`, the patch-staging lemmas, the codec round-trip, and finally
one theorem per claim (with witnesses and counterexamples). -/

theorem objGet_objDel_self (o : Obj) (k : String) : objGet (objDel o k) k = none := by
  induction o with
  | nil => rfl
  | cons kv rest ih =>
    obtain ⟨k', v⟩ := kv
    by_cases h : k' = k
    · simp [objDel, h, ih]
    · simp [objDel, objGet, h, ih]

theorem objGet_objDel_ne (o : Obj) (k k' : String) (h : k' ≠ k) :
    objGet (objDel o k) k' = objGet o k' := by
  induction o with
  | nil => rfl
  | cons kv rest ih =>
    obtain ⟨k1, v⟩ := kv
    by_cases h1 : k1 = k
    · subst h1
      have h2 : ¬ k1 = k' := fun hc => h hc.symm
      simp [objDel, objGet, ih, h2]
    · simp only [objDel, if_neg h1, objGet]
      by_cases h2 : k1 = k'
      · simp [h2]
      · simp [h2, ih]

theorem objGet_objSet_self (o : Obj) (k : String) (v : Json) :
    objGet (objSet o k v) k = some v := by
  induction o with
  | nil => simp [objSet, objGet]
  | cons kv rest ih =>
    obtain ⟨k1, v1⟩ := kv
    by_cases h : k1 = k
    · simp [objSet, h, objGet]
    · simp [objSet, h, objGet, ih]

theorem objGet_objSet_ne (o : Obj) (k k' : String) (v : Json) (h : k' ≠ k) :
    objGet (objSet o k v) k' = objGet o k' := by
  induction o with
  | nil =>
    simp only [objSet, objGet]
    rw [if_neg (fun hc : k = k' => h hc.symm)]
  | cons kv rest ih =>
    obtain ⟨k1, v1⟩ := kv
    by_cases h1 : k1 = k
    · subst h1
      have h2 : ¬ k1 = k' := fun hc => h hc.symm
      simp [objSet, objGet, h2]
    · simp only [objSet, if_neg h1, objGet]
      by_cases h2 : k1 = k'
      · simp [h2]
      · simp [h2, ih]

theorem objSet_objSet_same (o : Obj) (k : String) (v : Json) :
    objSet (objSet o k v) k v = objSet o k v := by
  induction o with
  | nil => simp [objSet]
  | cons kv rest ih =>
    obtain ⟨k1, v1⟩ := kv
    by_cases h : k1 = k
    · simp [objSet, h]
    · simp [objSet, h, ih]

theorem objGet_filter_none (anns : Obj) (p : String × Json → Bool) (k : String)
    (h : ∀ v, p (k, v) = false) : objGet (anns.filter p) k = none := by
  induction anns with
  | nil => rfl
  | cons kv rest ih =>
    obtain ⟨k1, v1⟩ := kv
    by_cases hk : k1 = k
    · subst hk
      simp [List.filter, h v1, ih, objGet]
    · cases hp : p (k1, v1) <;> simp [List.filter, hp, objGet, hk, ih]

theorem parseFieldSpec_mlabels :
    parseFieldSpec ("metadata.labels") = [("metadata"), ("labels")] := rfl

theorem parseFieldSpec_manns :
    parseFieldSpec ("metadata.annotations") = [("metadata"), ("annotations")] := rfl

theorem parseFieldSpec_sphase :
    parseFieldSpec ("status.phase") = [("status"), ("phase")] := rfl

theorem objGet_ensurePath_ne (o : Obj) (path : List String) (v : Json) (k' : String)
    (h : path.head? ≠ some k') : objGet (ensurePath o path v) k' = objGet o k' := by
  cases path with
  | nil => rfl
  | cons k rest =>
    have hk : k' ≠ k := fun hc => h (by simp [hc])
    cases rest with
    | nil => exact objGet_objSet_ne _ _ _ _ hk
    | cons k2 t => exact objGet_objSet_ne _ _ _ _ hk

theorem objGet_cherrypick_ne (src : Obj) (k' : String) :
    ∀ (fields : List FieldSpec), (∀ f ∈ fields, (parseFieldSpec f).head? ≠ some k') →
      ∀ dst, objGet (cherrypick src dst fields) k' = objGet dst k'
  | [], _, dst => rfl
  | f :: fs, h, dst => by
    have hf := h f (List.mem_cons_self f fs)
    have hfs : ∀ g ∈ fs, (parseFieldSpec g).head? ≠ some k' :=
      fun g hg => h g (List.mem_cons_of_mem f hg)
    have ih := objGet_cherrypick_ne src k' fs hfs
    simp only [cherrypick, List.foldl_cons] at ih ⊢
    rw [ih]
    cases hres : resolvePath (.obj src) (parseFieldSpec f) with
    | none => rfl
    | some v => exact objGet_ensurePath_ne dst _ v k' hf

theorem objGet_stripGarbage_ne (e : Obj) (annKey k' : String) (h : k' ≠ ("metadata")) :
    objGet (stripGarbageAnns e annKey) k' = objGet e k' := by
  unfold stripGarbageAnns
  split
  · split
    · exact objGet_objSet_ne _ _ _ _ h
    · rfl
  · rfl

theorem annSlot_stripGarbage (e : Obj) (annKey : String) :
    annSlotGet (stripGarbageAnns e annKey) annKey = none
    ∧ annSlotGet (stripGarbageAnns e annKey) kubectlKey = none := by
  cases hmd : objGet e ("metadata") with
  | none =>
    constructor <;> simp [stripGarbageAnns, annSlotGet, annsOf, hmd, objGet]
  | some md =>
    cases md with
    | obj m =>
      cases hann : objGet m ("annotations") with
      | none =>
        constructor <;> simp [stripGarbageAnns, annSlotGet, annsOf, hmd, hann, objGet]
      | some av =>
        cases av with
        | obj anns =>
          constructor <;>
          · simp [stripGarbageAnns, hmd, hann, annSlotGet, annsOf, objGet_objSet_self]
            exact objGet_filter_none _ _ _ (fun v => by simp)
        | null =>
          constructor <;> simp [stripGarbageAnns, annSlotGet, annsOf, hmd, hann, objGet]
        | bool b =>
          constructor <;> simp [stripGarbageAnns, annSlotGet, annsOf, hmd, hann, objGet]
        | num n =>
          constructor <;> simp [stripGarbageAnns, annSlotGet, annsOf, hmd, hann, objGet]
        | str s =>
          constructor <;> simp [stripGarbageAnns, annSlotGet, annsOf, hmd, hann, objGet]
        | arr xs =>
          constructor <;> simp [stripGarbageAnns, annSlotGet, annsOf, hmd, hann, objGet]
    | null => constructor <;> simp [stripGarbageAnns, annSlotGet, annsOf, hmd, objGet]
    | bool b => constructor <;> simp [stripGarbageAnns, annSlotGet, annsOf, hmd, objGet]
    | num n => constructor <;> simp [stripGarbageAnns, annSlotGet, annsOf, hmd, objGet]
    | str s => constructor <;> simp [stripGarbageAnns, annSlotGet, annsOf, hmd, objGet]
    | arr xs => constructor <;> simp [stripGarbageAnns, annSlotGet, annsOf, hmd, objGet]

theorem objGet_pruneAnns_ne (e : Obj) (k' : String) (h : k' ≠ ("metadata")) :
    objGet (pruneAnns e) k' = objGet e k' := by
  unfold pruneAnns
  split
  · split
    · split
      · exact objGet_objSet_ne _ _ _ _ h
      · rfl
    · rfl
  · rfl

theorem objGet_pruneMeta_ne (e : Obj) (k' : String) (h : k' ≠ ("metadata")) :
    objGet (pruneMeta e) k' = objGet e k' := by
  unfold pruneMeta
  split
  · split
    · exact objGet_objDel_ne _ _ _ h
    · rfl
  · rfl

theorem objGet_pruneStatus_ne (e : Obj) (k' : String) (h : k' ≠ ("status")) :
    objGet (pruneStatus e) k' = objGet e k' := by
  unfold pruneStatus
  split
  · split
    · exact objGet_objDel_ne _ _ _ h
    · rfl
  · rfl

theorem annSlot_pruneAnns_none (e : Obj) (k : String) (h : annSlotGet e k = none) :
    annSlotGet (pruneAnns e) k = none := by
  cases hmd : objGet e ("metadata") with
  | none => simpa [pruneAnns, hmd] using h
  | some md =>
    cases md with
    | obj m =>
      cases hann : objGet m ("annotations") with
      | none => simpa [pruneAnns, hmd, hann] using h
      | some av =>
        by_cases hf : pyFalsy av = true
        · simp [pruneAnns, hmd, hann, hf, annSlotGet, annsOf, objGet_objSet_self,
                objGet_objDel_self, objGet]
        · simpa [pruneAnns, hmd, hann, hf] using h
    | null => simpa [pruneAnns, hmd] using h
    | bool b => simpa [pruneAnns, hmd] using h
    | num n => simpa [pruneAnns, hmd] using h
    | str s => simpa [pruneAnns, hmd] using h
    | arr xs => simpa [pruneAnns, hmd] using h

theorem annSlot_pruneMeta_none (e : Obj) (k : String) (h : annSlotGet e k = none) :
    annSlotGet (pruneMeta e) k = none := by
  cases hmd : objGet e ("metadata") with
  | none => simpa [pruneMeta, hmd] using h
  | some md =>
    by_cases hf : pyFalsy md = true
    · simp [pruneMeta, hmd, hf, annSlotGet, annsOf, objGet_objDel_self, objGet]
    · simpa [pruneMeta, hmd, hf] using h

theorem annSlot_pruneStatus (e : Obj) (k : String) :
    annSlotGet (pruneStatus e) k = annSlotGet e k := by
  rw [annSlotGet, annSlotGet]
  unfold annsOf
  rw [objGet_pruneStatus_ne e ("metadata") (by decide)]

theorem retrieve_not_stored (body : Obj) (pfx : Option String)
    (h : has_essence_stored body pfx = false) :
    retrieve_essence body pfx = .ok .null := by
  simp [retrieve_essence, h]

theorem pyEq_obj_null (e : Obj) : pyEq (.obj e) .null = false := rfl

theorem patchStageAnn_eq (patch : Obj) (k val : String) (m a : Obj)
    (hm : (objGet patch ("metadata")).getD (.obj []) = .obj m)
    (ha : (objGet m ("annotations")).getD (.obj []) = .obj a) :
    patchStageAnn patch k val
      = .ok (objSet patch ("metadata")
          (.obj (objSet m ("annotations") (.obj (objSet a k (.str val)))))) := by
  simp [patchStageAnn, hm, ha]

theorem patchStageAnn_inv (patch p' : Obj) (k val : String)
    (h : patchStageAnn patch k val = .ok p') :
    ∃ m a, (objGet patch ("metadata")).getD (.obj []) = .obj m
      ∧ (objGet m ("annotations")).getD (.obj []) = .obj a
      ∧ p' = objSet patch ("metadata")
          (.obj (objSet m ("annotations") (.obj (objSet a k (.str val))))) := by
  cases hmd : (objGet patch ("metadata")).getD (.obj []) with
  | obj m =>
    cases hann : (objGet m ("annotations")).getD (.obj []) with
    | obj a =>
      have he := patchStageAnn_eq patch k val m a hmd hann
      rw [he] at h
      injection h with h'
      exact ⟨m, a, rfl, hann, h'.symm⟩
    | null => simp [patchStageAnn, hmd, hann] at h
    | bool b => simp [patchStageAnn, hmd, hann] at h
    | num n => simp [patchStageAnn, hmd, hann] at h
    | str s => simp [patchStageAnn, hmd, hann] at h
    | arr xs => simp [patchStageAnn, hmd, hann] at h
  | null => simp [patchStageAnn, hmd] at h
  | bool b => simp [patchStageAnn, hmd] at h
  | num n => simp [patchStageAnn, hmd] at h
  | str s => simp [patchStageAnn, hmd] at h
  | arr xs => simp [patchStageAnn, hmd] at h

theorem patchStageAnn_idem (patch p' : Obj) (k val : String)
    (h : patchStageAnn patch k val = .ok p') : patchStageAnn p' k val = .ok p' := by
  obtain ⟨m, a, hm, ha, rfl⟩ := patchStageAnn_inv patch p' k val h
  have hm' : (objGet (objSet patch ("metadata")
      (.obj (objSet m ("annotations") (.obj (objSet a k (.str val)))))) ("metadata")).getD
        (.obj []) = .obj (objSet m ("annotations") (.obj (objSet a k (.str val)))) := by
    rw [objGet_objSet_self]; rfl
  have ha' : (objGet (objSet m ("annotations") (.obj (objSet a k (.str val))))
      ("annotations")).getD (.obj []) = .obj (objSet a k (.str val)) := by
    rw [objGet_objSet_self]; rfl
  rw [patchStageAnn_eq _ k val _ _ hm' ha']
  rw [objSet_objSet_same, objSet_objSet_same, objSet_objSet_same]

theorem patchStageAnn_of_wf (patch : Obj) (k val : String) (h : patchWF patch = true) :
    ∃ p', patchStageAnn patch k val = .ok p' := by
  cases hmd : objGet patch ("metadata") with
  | none =>
    exact ⟨_, patchStageAnn_eq patch k val [] [] (by rw [hmd]; rfl) rfl⟩
  | some md =>
    cases md with
    | obj m =>
      cases hann : objGet m ("annotations") with
      | none => exact ⟨_, patchStageAnn_eq patch k val m [] (by rw [hmd]; rfl) (by rw [hann]; rfl)⟩
      | some av =>
        cases av with
        | obj a =>
          exact ⟨_, patchStageAnn_eq patch k val m a (by rw [hmd]; rfl) (by rw [hann]; rfl)⟩
        | null => simp [patchWF, hmd, hann] at h
        | bool b => simp [patchWF, hmd, hann] at h
        | num n => simp [patchWF, hmd, hann] at h
        | str s => simp [patchWF, hmd, hann] at h
        | arr xs => simp [patchWF, hmd, hann] at h
    | null => simp [patchWF, hmd] at h
    | bool b => simp [patchWF, hmd] at h
    | num n => simp [patchWF, hmd] at h
    | str s => simp [patchWF, hmd] at h
    | arr xs => simp [patchWF, hmd] at h

theorem annsOf_objSet2 (x : Obj) (m A : Obj) :
    annsOf (objSet x ("metadata") (.obj (objSet m ("annotations") (.obj A)))) = A := by
  simp [annsOf, objGet_objSet_self]

theorem annsOf_from_getD (x : Obj) (m a : Obj)
    (hm : (objGet x ("metadata")).getD (.obj []) = .obj m)
    (ha : (objGet m ("annotations")).getD (.obj []) = .obj a) :
    annsOf x = a := by
  cases hpm : objGet x ("metadata") with
  | none =>
    rw [hpm] at hm
    simp at hm
    subst hm
    simp [objGet] at ha
    subst ha
    simp [annsOf, hpm]
  | some md =>
    rw [hpm] at hm
    simp at hm
    subst hm
    cases hma : objGet m ("annotations") with
    | none =>
      rw [hma] at ha
      simp at ha
      subst ha
      simp [annsOf, hpm, hma]
    | some av =>
      rw [hma] at ha
      simp at ha
      subst ha
      simp [annsOf, hpm, hma]

theorem annSlot_patchStage (patch p' : Obj) (k val : String)
    (h : patchStageAnn patch k val = .ok p') :
    annSlotGet p' k = some (.str val) := by
  obtain ⟨m, a, hm, ha, rfl⟩ := patchStageAnn_inv patch p' k val h
  rw [annSlotGet, annsOf_objSet2, objGet_objSet_self]

theorem refresh_essence_ok_cases (body patch : Obj) (extra : List FieldSpec)
    (pfx : Option String) (old : Json)
    (hret : retrieve_essence body pfx = .ok old) :
    refresh_essence body patch extra pfx
      = if pyEq (.obj (get_essence body pfx extra)) old then .ok patch
        else patchStageAnn patch (lastSeenKey pfx)
          (Json.dumps (.obj (get_essence body pfx extra))) := by
  simp [refresh_essence, hret]

/-- C10: for the empty-string prefix, `last_seen_annotation` returns the bare
base key with no leading separator — the same key as for the absent prefix —
so the empty-string prefix and the absent prefix address the same stored
essence and are indistinguishable to every operation of the module. -/
theorem empty_prefix_same_key :
    lastSeenKey (some ("")) = baseLastSeenKey
    ∧ lastSeenKey none = baseLastSeenKey
    ∧ (∀ body extra, get_essence body (some ("")) extra = get_essence body none extra)
    ∧ (∀ body, has_essence_stored body (some ("")) = has_essence_stored body none)
    ∧ (∀ body, retrieve_essence body (some ("")) = retrieve_essence body none)
    ∧ (∀ body patch extra,
        refresh_essence body patch extra (some ("")) = refresh_essence body patch extra none) :=
  ⟨rfl, rfl, fun _ _ => rfl, fun _ => rfl, fun _ => rfl, fun _ _ _ => rfl⟩

/-- C8: a body whose tracking annotation stores the text `"null"` has
`has_essence_stored` true, yet `retrieve_essence` returns the very value
(`None` alias `Json.null`) that signals "no stored essence", making such a
body indistinguishable from one with no annotation at all — here
`refresh_essence` even produces the identical staged patch for both. -/
theorem stored_null_is_absent :
    has_essence_stored cBodyAnnNull none = true
    ∧ retrieve_essence cBodyAnnNull none = .ok .null
    ∧ retrieve_essence cBodyAnnNull none = retrieve_essence ([]) none
    ∧ refresh_essence cBodyAnnNull ([]) [] none = refresh_essence ([]) ([]) [] none :=
  ⟨rfl, rfl, rfl, rfl⟩

/-- C3 (corrected): `retrieve_essence` returns the absent value whenever
`has_essence_stored` is false; when the annotation is present but its string
value is unparsable it fails with a ParseError propagated to the caller; and
when the value parses it returns the parsed document.  The original "absent
exactly when `has_essence_stored` is false" fails in one direction: a stored
`"null"` also parses to the absent value (see the counterexample and C8). -/
theorem retrieve_essence_spec (body : Obj) (pfx : Option String) :
    (has_essence_stored body pfx = false → retrieve_essence body pfx = .ok .null)
    ∧ (∀ s, annSlotGet body (lastSeenKey pfx) = some (.str s) → Json.loads s = none →
        retrieve_essence body pfx = .error .parseError)
    ∧ (∀ s v, annSlotGet body (lastSeenKey pfx) = some (.str s) → Json.loads s = some v →
        retrieve_essence body pfx = .ok v) := by
  refine ⟨fun h => retrieve_not_stored body pfx h, fun s hs hl => ?_, fun s v hs hl => ?_⟩
  · have hhas : has_essence_stored body pfx = true := by
      simp [has_essence_stored, hs]
    simp [retrieve_essence, hhas, hs, hl]
  · have hhas : has_essence_stored body pfx = true := by
      simp [has_essence_stored, hs]
    simp [retrieve_essence, hhas, hs, hl]

/-- Counterexample to C3 as stated: a body whose prefixed tracking annotation
stores `"null"` has the annotation present (`has_essence_stored` true), yet
`retrieve_essence` returns the absent value. -/
theorem retrieve_essence_spec_cx :
    has_essence_stored cBodyAnnNullP (some ("p")) = true
    ∧ retrieve_essence cBodyAnnNullP (some ("p")) = .ok .null :=
  ⟨rfl, rfl⟩

/-- Witness for C3: the three branches of `retrieve_essence_spec` at concrete
inputs — no annotation, the unparsable text `\x7bnot valid\x7d`, and the
parsable text `"null"`. -/
theorem retrieve_essence_spec_witness :
    (has_essence_stored ([]) none = false ∧ retrieve_essence ([]) none = .ok .null)
    ∧ (annSlotGet cBodyBadAnn (lastSeenKey none) = some (.str ("\x7bnot valid\x7d"))
        ∧ Json.loads ("\x7bnot valid\x7d") = none
        ∧ retrieve_essence cBodyBadAnn none = .error .parseError)
    ∧ (annSlotGet cBodyAnnNull (lastSeenKey none) = some (.str ("null"))
        ∧ Json.loads ("null") = some .null
        ∧ retrieve_essence cBodyAnnNull none = .ok .null) :=
  ⟨⟨rfl, (retrieve_essence_spec ([]) none).1 rfl⟩,
   ⟨rfl, rfl, (retrieve_essence_spec cBodyBadAnn none).2.1 _ rfl rfl⟩,
   ⟨rfl, rfl, (retrieve_essence_spec cBodyAnnNull none).2.2 _ _ rfl rfl⟩⟩

/-- C2: if the essence retrieved from the body's tracking annotation is
structurally equal (Python `==`) to the freshly computed essence, then
`refresh_essence` returns the patch unmodified; and calling
`refresh_essence` twice in a row on an unchanged body produces no patch
mutation on the second call (the second call returns its input patch). -/
theorem refresh_essence_idempotent :
    (∀ (body patch : Obj) (extra : List FieldSpec) (pfx : Option String) (old : Json),
        retrieve_essence body pfx = .ok old →
        pyEq (.obj (get_essence body pfx extra)) old = true →
        refresh_essence body patch extra pfx = .ok patch)
    ∧ (∀ (body patch p1 : Obj) (extra : List FieldSpec) (pfx : Option String),
        refresh_essence body patch extra pfx = .ok p1 →
        refresh_essence body p1 extra pfx = .ok p1) := by
  constructor
  · intro body patch extra pfx old hret heq
    simp [refresh_essence, hret, heq]
  · intro body patch p1 extra pfx h
    cases hret : retrieve_essence body pfx with
    | error e => rw [refresh_essence, hret] at h; cases h
    | ok old =>
      rw [refresh_essence_ok_cases body patch extra pfx old hret] at h
      rw [refresh_essence_ok_cases body p1 extra pfx old hret]
      by_cases heq : pyEq (.obj (get_essence body pfx extra)) old = true
      · rw [if_pos heq] at h
        injection h with h'
        subst h'
        rw [if_pos heq]
      · rw [if_neg heq] at h ⊢
        exact patchStageAnn_idem _ _ _ _ h

/-- Witness for C2: a body storing exactly the serialization of its own
essence is left alone, and re-running `refresh_essence` after a first
staging returns the staged patch unchanged. -/
theorem refresh_essence_idempotent_witness :
    refresh_essence cBodySelf cPatchOther [] none = .ok cPatchOther
    ∧ refresh_essence cBodySpec cPatchOtherStaged [] none = .ok cPatchOtherStaged :=
  ⟨refresh_essence_idempotent.1 cBodySelf cPatchOther [] none
      (.obj [(("spec"), .str ("a"))]) rfl rfl,
   refresh_essence_idempotent.2 cBodySpec cPatchOther cPatchOtherStaged [] none rfl⟩

/-- C6: the only mutation `refresh_essence` performs on the patch is writing
the serialized fresh essence into the single annotation slot
`patch.metadata.annotations[lastSeenKey pfx]` (creating the intermediate
containers if needed): every other top-level entry, every other `metadata`
entry and every other annotation of the patch is unchanged, and either the
patch is returned untouched or that slot holds exactly the serialized fresh
essence (whose value does not depend on the patch). -/
theorem refresh_essence_frame :
    ∀ (body patch p' : Obj) (extra : List FieldSpec) (pfx : Option String),
      refresh_essence body patch extra pfx = .ok p' →
      (∀ k, k ≠ ("metadata") → objGet p' k = objGet patch k)
      ∧ (∀ k, k ≠ ("annotations") → mdGet p' k = mdGet patch k)
      ∧ (∀ k, k ≠ lastSeenKey pfx → annSlotGet p' k = annSlotGet patch k)
      ∧ (p' = patch ∨ annSlotGet p' (lastSeenKey pfx)
            = some (.str (Json.dumps (.obj (get_essence body pfx extra))))) := by
  intro body patch p' extra pfx h
  cases hret : retrieve_essence body pfx with
  | error e => rw [refresh_essence, hret] at h; cases h
  | ok old =>
    rw [refresh_essence_ok_cases body patch extra pfx old hret] at h
    by_cases heq : pyEq (.obj (get_essence body pfx extra)) old = true
    · rw [if_pos heq] at h
      injection h with h'
      subst h'
      exact ⟨fun _ _ => rfl, fun _ _ => rfl, fun _ _ => rfl, Or.inl rfl⟩
    · rw [if_neg heq] at h
      have hslot := annSlot_patchStage _ _ _ _ h
      obtain ⟨m, a, hm, ha, rfl⟩ := patchStageAnn_inv _ _ _ _ h
      refine ⟨?_, ?_, ?_, Or.inr hslot⟩
      · intro k hk
        exact objGet_objSet_ne _ _ _ _ hk
      · intro k hk
        simp only [mdGet, objGet_objSet_self]
        rw [objGet_objSet_ne _ _ _ _ hk]
        cases hpm : objGet patch ("metadata") with
        | none =>
          rw [hpm] at hm
          simp at hm
          subst hm
          simp [objGet]
        | some md =>
          rw [hpm] at hm
          simp at hm
          subst hm
          rfl
      · intro k hk
        have hanns := annsOf_from_getD patch m a hm ha
        rw [annSlotGet, annSlotGet, annsOf_objSet2, hanns]
        exact objGet_objSet_ne _ _ _ _ hk

/-- Witness for C6: after staging into a patch with an unrelated entry, that
entry, an unrelated metadata entry and an unrelated annotation read back
unchanged. -/
theorem refresh_essence_frame_witness :
    objGet cPatchOtherStaged ("other") = objGet cPatchOther ("other")
    ∧ mdGet cPatchOtherStaged ("labels") = mdGet cPatchOther ("labels")
    ∧ annSlotGet cPatchOtherStaged ("user") = annSlotGet cPatchOther ("user") := by
  have h : refresh_essence cBodySpec cPatchOther [] none = .ok cPatchOtherStaged := rfl
  have hf := refresh_essence_frame cBodySpec cPatchOther cPatchOtherStaged [] none h
  exact ⟨hf.1 ("other") (by decide), hf.2.1 ("labels") (by decide),
         hf.2.2.1 ("user") (by decide)⟩

/-- C9: when no essence is stored under the given prefix, `refresh_essence`
always stages the annotation — its result is exactly the patch-staging of
the serialized fresh essence, and on a well-formed patch it succeeds with
the slot set — even when the fresh essence is the empty mapping, since an
empty dict is still `!=` Python `None`. -/
theorem refresh_stages_when_not_stored :
    ∀ (body patch : Obj) (extra : List FieldSpec) (pfx : Option String),
      has_essence_stored body pfx = false →
      (refresh_essence body patch extra pfx
          = patchStageAnn patch (lastSeenKey pfx)
              (Json.dumps (.obj (get_essence body pfx extra))))
      ∧ (patchWF patch = true → ∃ p', refresh_essence body patch extra pfx = .ok p'
          ∧ annSlotGet p' (lastSeenKey pfx)
              = some (.str (Json.dumps (.obj (get_essence body pfx extra))))) := by
  intro body patch extra pfx h
  have hret := retrieve_not_stored body pfx h
  constructor
  · simp [refresh_essence, hret, pyEq_obj_null]
  · intro hwf
    obtain ⟨p', hp⟩ := patchStageAnn_of_wf patch (lastSeenKey pfx)
      (Json.dumps (.obj (get_essence body pfx extra))) hwf
    refine ⟨p', ?_, annSlot_patchStage _ _ _ _ hp⟩
    simp [refresh_essence, hret, pyEq_obj_null, hp]

/-- Witness for C9: an empty body with an empty patch — no trackable content
at all — still gets a serialized empty-mapping annotation staged. -/
theorem refresh_stages_when_not_stored_witness :
    has_essence_stored ([]) none = false
    ∧ patchWF ([]) = true
    ∧ refresh_essence ([]) ([]) [] none
        = patchStageAnn ([]) (lastSeenKey none) (Json.dumps (.obj (get_essence ([]) none [])))
    ∧ refresh_essence ([]) ([]) [] none
        = .ok [(("metadata"), .obj [(("annotations"), .obj
            [((baseLastSeenKey), .str (Json.dumps (.obj [])))])])] :=
  ⟨rfl, rfl, (refresh_stages_when_not_stored ([]) ([]) [] none rfl).1, rfl⟩

theorem cherrypick_singleton (src dst : Obj) (f : FieldSpec) :
    cherrypick src dst [f]
      = (match resolvePath (.obj src) (parseFieldSpec f) with
         | some v => ensurePath dst (parseFieldSpec f) v
         | none => dst) := rfl

theorem annsOf_congr (x y : Obj) (h : objGet x ("metadata") = objGet y ("metadata")) :
    annsOf x = annsOf y := by
  unfold annsOf
  rw [h]

/-- C1 (corrected): for every body, every prefix, and every extraFields
argument none of whose dotted paths starts at `apiVersion`, `kind` or
`metadata`, the essence computed by `get_essence` contains neither of the
top-level keys `apiVersion` and `kind`, and its `metadata.annotations`
contain neither the tracking annotation key for that prefix nor the
`kubectl` last-applied annotation.  The restriction on extraFields is
necessary: the extra-field cherry-pick runs after the deletions and the
annotation stripping and re-admits such paths verbatim from the original
body (see the counterexample). -/
theorem get_essence_excludes_bookkeeping :
    ∀ (body : Obj) (pfx : Option String) (extra : List FieldSpec),
      (∀ f ∈ extra, goodField f) →
      objGet (get_essence body pfx extra) ("apiVersion") = none
      ∧ objGet (get_essence body pfx extra) ("kind") = none
      ∧ annSlotGet (get_essence body pfx extra) (lastSeenKey pfx) = none
      ∧ annSlotGet (get_essence body pfx extra) (kubectlKey) = none := by
  intro body pfx extra hgood
  have hgu : get_essence body pfx extra
      = pruneEmpties (cherrypick body (stripGarbageAnns (cherrypick body
          (objDel (objDel (objDel (objDel body ("apiVersion")) ("kind")) ("metadata"))
            ("status"))
          [("metadata.labels"), ("metadata.annotations")]) (lastSeenKey pfx)) extra) := rfl
  refine ⟨?_, ?_, ?_, ?_⟩
  · rw [hgu, pruneEmpties]
    rw [objGet_pruneStatus_ne _ _ (by decide), objGet_pruneMeta_ne _ _ (by decide),
        objGet_pruneAnns_ne _ _ (by decide)]
    rw [objGet_cherrypick_ne body ("apiVersion") extra (fun f hf => (hgood f hf).1)]
    rw [objGet_stripGarbage_ne _ _ _ (by decide)]
    rw [objGet_cherrypick_ne body ("apiVersion") _ (by decide)]
    rw [objGet_objDel_ne _ _ _ (by decide), objGet_objDel_ne _ _ _ (by decide),
        objGet_objDel_ne _ _ _ (by decide)]
    exact objGet_objDel_self body ("apiVersion")
  · rw [hgu, pruneEmpties]
    rw [objGet_pruneStatus_ne _ _ (by decide), objGet_pruneMeta_ne _ _ (by decide),
        objGet_pruneAnns_ne _ _ (by decide)]
    rw [objGet_cherrypick_ne body ("kind") extra (fun f hf => (hgood f hf).2.1)]
    rw [objGet_stripGarbage_ne _ _ _ (by decide)]
    rw [objGet_cherrypick_ne body ("kind") _ (by decide)]
    rw [objGet_objDel_ne _ _ _ (by decide), objGet_objDel_ne _ _ _ (by decide)]
    exact objGet_objDel_self _ ("kind")
  · rw [hgu, pruneEmpties, annSlot_pruneStatus]
    apply annSlot_pruneMeta_none
    apply annSlot_pruneAnns_none
    rw [annSlotGet, annsOf_congr _ _
      (objGet_cherrypick_ne body ("metadata") extra (fun f hf => (hgood f hf).2.2) _)]
    exact (annSlot_stripGarbage _ _).1
  · rw [hgu, pruneEmpties, annSlot_pruneStatus]
    apply annSlot_pruneMeta_none
    apply annSlot_pruneAnns_none
    rw [annSlotGet, annsOf_congr _ _
      (objGet_cherrypick_ne body ("metadata") extra (fun f hf => (hgood f hf).2.2) _)]
    exact (annSlot_stripGarbage _ _).2

/-- Counterexample to C1 as stated: with `extraFields = ["apiVersion"]`, the
extra-field cherry-pick re-admits the deleted identity key, so the essence
does contain `apiVersion`. -/
theorem get_essence_excludes_bookkeeping_cx :
    objGet (get_essence [(("apiVersion"), .str ("v1"))] none [("apiVersion")]) ("apiVersion")
      = some (.str ("v1")) := rfl

/-- Witness for C1: on a body with `apiVersion`, `kind`, the tracking
annotation, a user annotation and the `kubectl` annotation, with the benign
extra field `"spec"`, all four exclusions hold. -/
theorem get_essence_excludes_bookkeeping_witness :
    objGet (get_essence cBodyFull none [("spec")]) ("apiVersion") = none
    ∧ objGet (get_essence cBodyFull none [("spec")]) ("kind") = none
    ∧ annSlotGet (get_essence cBodyFull none [("spec")]) (lastSeenKey none) = none
    ∧ annSlotGet (get_essence cBodyFull none [("spec")]) (kubectlKey) = none :=
  get_essence_excludes_bookkeeping cBodyFull none [("spec")] (by decide)

/-- C4 (corrected): a body whose metadata is exactly `\x7b"labels": \x7b\x7d\x7d`
does not lose its `metadata` key: the empty labels mapping is cherry-picked
back into the essence, the resulting `metadata` is non-empty (hence
Python-truthy) and the cleanup prunes only empty `annotations`, `metadata`
and `status` — there is no pruning of empty `labels` — so the essence keeps
`metadata.labels = \x7b\x7d` and "no labels" and "empty labels object" do
not compare equal. -/
theorem get_essence_empty_labels (body : Obj) (pfx : Option String)
    (hm : objGet body ("metadata") = some (.obj [(("labels"), .obj [])])) :
    objGet (get_essence body pfx []) ("metadata")
      = some (.obj [(("labels"), .obj [])]) := by
  have h0 : objGet (objDel (objDel (objDel (objDel body ("apiVersion")) ("kind"))
      ("metadata")) ("status")) ("metadata") = none := by
    rw [objGet_objDel_ne _ _ _ (by decide)]
    exact objGet_objDel_self _ _
  have hres1 : resolvePath (.obj body) [("metadata"), ("labels")] = some (.obj []) := by
    simp [resolvePath, hm, objGet]
  have hres2 : resolvePath (.obj body) [("metadata"), ("annotations")] = none := by
    simp [resolvePath, hm, objGet]
  have he1 : cherrypick body
      (objDel (objDel (objDel (objDel body ("apiVersion")) ("kind")) ("metadata")) ("status"))
      [("metadata.labels"), ("metadata.annotations")]
      = objSet (objDel (objDel (objDel (objDel body ("apiVersion")) ("kind")) ("metadata"))
          ("status")) ("metadata") (.obj [(("labels"), .obj [])]) := by
    simp only [cherrypick, List.foldl_cons, List.foldl_nil, parseFieldSpec_mlabels,
      parseFieldSpec_manns, hres1, hres2]
    simp [ensurePath, h0, objSet]
  have hmeta1 : objGet (cherrypick body
      (objDel (objDel (objDel (objDel body ("apiVersion")) ("kind")) ("metadata")) ("status"))
      [("metadata.labels"), ("metadata.annotations")]) ("metadata")
      = some (.obj [(("labels"), .obj [])]) := by
    rw [he1, objGet_objSet_self]
  have hst : objGet (cherrypick body
      (objDel (objDel (objDel (objDel body ("apiVersion")) ("kind")) ("metadata")) ("status"))
      [("metadata.labels"), ("metadata.annotations")]) ("status") = none := by
    rw [he1, objGet_objSet_ne _ _ _ _ (by decide)]
    exact objGet_objDel_self _ _
  have hstrip : stripGarbageAnns (cherrypick body
      (objDel (objDel (objDel (objDel body ("apiVersion")) ("kind")) ("metadata")) ("status"))
      [("metadata.labels"), ("metadata.annotations")]) (lastSeenKey pfx)
      = cherrypick body
          (objDel (objDel (objDel (objDel body ("apiVersion")) ("kind")) ("metadata"))
            ("status"))
          [("metadata.labels"), ("metadata.annotations")] := by
    simp [stripGarbageAnns, hmeta1, objGet]
  have hgu : get_essence body pfx []
      = pruneEmpties (stripGarbageAnns (cherrypick body
          (objDel (objDel (objDel (objDel body ("apiVersion")) ("kind")) ("metadata"))
            ("status"))
          [("metadata.labels"), ("metadata.annotations")]) (lastSeenKey pfx)) := rfl
  rw [hgu, hstrip, pruneEmpties]
  have hpa : pruneAnns (cherrypick body
      (objDel (objDel (objDel (objDel body ("apiVersion")) ("kind")) ("metadata")) ("status"))
      [("metadata.labels"), ("metadata.annotations")])
      = cherrypick body
          (objDel (objDel (objDel (objDel body ("apiVersion")) ("kind")) ("metadata"))
            ("status"))
          [("metadata.labels"), ("metadata.annotations")] := by
    simp [pruneAnns, hmeta1, objGet]
  have hpm : pruneMeta (cherrypick body
      (objDel (objDel (objDel (objDel body ("apiVersion")) ("kind")) ("metadata")) ("status"))
      [("metadata.labels"), ("metadata.annotations")])
      = cherrypick body
          (objDel (objDel (objDel (objDel body ("apiVersion")) ("kind")) ("metadata"))
            ("status"))
          [("metadata.labels"), ("metadata.annotations")] := by
    simp [pruneMeta, hmeta1, pyFalsy]
  have hps : pruneStatus (cherrypick body
      (objDel (objDel (objDel (objDel body ("apiVersion")) ("kind")) ("metadata")) ("status"))
      [("metadata.labels"), ("metadata.annotations")])
      = cherrypick body
          (objDel (objDel (objDel (objDel body ("apiVersion")) ("kind")) ("metadata"))
            ("status"))
          [("metadata.labels"), ("metadata.annotations")] := by
    simp [pruneStatus, hst]
  rw [hpa, hpm, hps, hmeta1]

/-- Counterexample to C4 as stated: the body whose only metadata is an empty
labels mapping yields an essence that still has the `metadata` key (holding
the empty labels mapping), not an essence without `metadata`. -/
theorem get_essence_empty_labels_cx :
    get_essence [(("metadata"), .obj [(("labels"), .obj [])])] none []
      = [(("metadata"), .obj [(("labels"), .obj [])])] := rfl

/-- Witness for C4 (corrected): a body with empty labels, no other metadata
and an unrelated `spec` keeps `metadata.labels = \x7b\x7d` in its essence. -/
theorem get_essence_empty_labels_witness :
    objGet (get_essence cBodyEmptyLabels none []) ("metadata")
      = some (.obj [(("labels"), .obj [])]) :=
  get_essence_empty_labels cBodyEmptyLabels none rfl

/-- C5: when the body holds `status.phase = "Running"`, `get_essence` with
`extraFields = ["status.phase"]` yields an essence whose `status` consists of
exactly `phase = "Running"` (the rest of the status stanza stays removed);
and an extra-field path that does not resolve in the body is not an error
and contributes nothing to the essence. -/
theorem get_essence_extra_fields :
    (∀ (body : Obj) (pfx : Option String) (st : Obj),
        objGet body ("status") = some (.obj st) →
        objGet st ("phase") = some (.str ("Running")) →
        objGet (get_essence body pfx [("status.phase")]) ("status")
          = some (.obj [(("phase"), .str ("Running"))]))
    ∧ (∀ (body : Obj) (pfx : Option String) (extra : List FieldSpec) (f : FieldSpec),
        resolvePath (.obj body) (parseFieldSpec f) = none →
        get_essence body pfx (extra ++ [f]) = get_essence body pfx extra) := by
  constructor
  · intro body pfx st hst hphase
    have hs0 : objGet (objDel (objDel (objDel (objDel body ("apiVersion")) ("kind"))
        ("metadata")) ("status")) ("status") = none := objGet_objDel_self _ _
    have hs1 : objGet (cherrypick body
        (objDel (objDel (objDel (objDel body ("apiVersion")) ("kind")) ("metadata"))
          ("status"))
        [("metadata.labels"), ("metadata.annotations")]) ("status") = none := by
      rw [objGet_cherrypick_ne body ("status") _ (by decide)]
      exact hs0
    have hs2 : objGet (stripGarbageAnns (cherrypick body
        (objDel (objDel (objDel (objDel body ("apiVersion")) ("kind")) ("metadata"))
          ("status"))
        [("metadata.labels"), ("metadata.annotations")]) (lastSeenKey pfx)) ("status")
        = none := by
      rw [objGet_stripGarbage_ne _ _ _ (by decide)]
      exact hs1
    have hres : resolvePath (.obj body) [("status"), ("phase")]
        = some (.str ("Running")) := by
      simp [resolvePath, hst, hphase]
    have he3 : cherrypick body (stripGarbageAnns (cherrypick body
        (objDel (objDel (objDel (objDel body ("apiVersion")) ("kind")) ("metadata"))
          ("status"))
        [("metadata.labels"), ("metadata.annotations")]) (lastSeenKey pfx))
        [("status.phase")]
        = objSet (stripGarbageAnns (cherrypick body
            (objDel (objDel (objDel (objDel body ("apiVersion")) ("kind")) ("metadata"))
              ("status"))
            [("metadata.labels"), ("metadata.annotations")]) (lastSeenKey pfx))
          ("status") (.obj [(("phase"), .str ("Running"))]) := by
      simp only [cherrypick_singleton, parseFieldSpec_sphase, hres]
      simp only [ensurePath, hs2, objSet]
    have hs3 : objGet (cherrypick body (stripGarbageAnns (cherrypick body
        (objDel (objDel (objDel (objDel body ("apiVersion")) ("kind")) ("metadata"))
          ("status"))
        [("metadata.labels"), ("metadata.annotations")]) (lastSeenKey pfx))
        [("status.phase")]) ("status")
        = some (.obj [(("phase"), .str ("Running"))]) := by
      rw [he3, objGet_objSet_self]
    have hgu : get_essence body pfx [("status.phase")]
        = pruneEmpties (cherrypick body (stripGarbageAnns (cherrypick body
            (objDel (objDel (objDel (objDel body ("apiVersion")) ("kind")) ("metadata"))
              ("status"))
            [("metadata.labels"), ("metadata.annotations")]) (lastSeenKey pfx))
            [("status.phase")]) := rfl
    rw [hgu, pruneEmpties]
    have hs4 : objGet (pruneMeta (pruneAnns (cherrypick body (stripGarbageAnns
        (cherrypick body
          (objDel (objDel (objDel (objDel body ("apiVersion")) ("kind")) ("metadata"))
            ("status"))
          [("metadata.labels"), ("metadata.annotations")]) (lastSeenKey pfx))
        [("status.phase")]))) ("status")
        = some (.obj [(("phase"), .str ("Running"))]) := by
      rw [objGet_pruneMeta_ne _ _ (by decide), objGet_pruneAnns_ne _ _ (by decide)]
      exact hs3
    rw [show pruneStatus (pruneMeta (pruneAnns (cherrypick body (stripGarbageAnns
        (cherrypick body
          (objDel (objDel (objDel (objDel body ("apiVersion")) ("kind")) ("metadata"))
            ("status"))
          [("metadata.labels"), ("metadata.annotations")]) (lastSeenKey pfx))
        [("status.phase")])))
        = pruneMeta (pruneAnns (cherrypick body (stripGarbageAnns (cherrypick body
            (objDel (objDel (objDel (objDel body ("apiVersion")) ("kind")) ("metadata"))
              ("status"))
            [("metadata.labels"), ("metadata.annotations")]) (lastSeenKey pfx))
            [("status.phase")]))
      from by simp [pruneStatus, hs4, pyFalsy]]
    exact hs4
  · intro body pfx extra f hresf
    have hc : ∀ dst : Obj, cherrypick body dst (extra ++ [f]) = cherrypick body dst extra := by
      intro dst
      simp [cherrypick, List.foldl_append, hresf]
    have hgu1 : get_essence body pfx (extra ++ [f])
        = pruneEmpties (cherrypick body (stripGarbageAnns (cherrypick body
            (objDel (objDel (objDel (objDel body ("apiVersion")) ("kind")) ("metadata"))
              ("status"))
            [("metadata.labels"), ("metadata.annotations")]) (lastSeenKey pfx))
            (extra ++ [f])) := rfl
    have hgu2 : get_essence body pfx extra
        = pruneEmpties (cherrypick body (stripGarbageAnns (cherrypick body
            (objDel (objDel (objDel (objDel body ("apiVersion")) ("kind")) ("metadata"))
              ("status"))
            [("metadata.labels"), ("metadata.annotations")]) (lastSeenKey pfx))
            extra) := rfl
    rw [hgu1, hgu2, hc]

/-- Witness for C5: on a body with `status = \x7bphase: Running, junk: j\x7d`,
the essence keeps exactly `status.phase`; and appending the unresolvable
extra path `"no.such"` leaves the essence unchanged. -/
theorem get_essence_extra_fields_witness :
    objGet (get_essence cBodyStatus none [("status.phase")]) ("status")
      = some (.obj [(("phase"), .str ("Running"))])
    ∧ get_essence cBodyStatus none ([] ++ [("no.such")]) = get_essence cBodyStatus none [] :=
  ⟨get_essence_extra_fields.1 cBodyStatus none
      [(("phase"), .str ("Running")), (("junk"), .str ("j"))] rfl rfl,
   get_essence_extra_fields.2 cBodyStatus none [] ("no.such") rfl⟩

/-! ## Codec round-trip: lexer-level lemmas -/

theorem skipWs_cons_ws (c : Char) (t : List Char) (h : isWsChar c = true) :
    skipWs (c :: t) = skipWs t := by
  simp [skipWs, h]

theorem skipWs_cons_not (c : Char) (t : List Char) (h : isWsChar c = false) :
    skipWs (c :: t) = c :: t := by
  simp [skipWs, h]

theorem digitChar_lt10 (d : Nat) (h : d < 10) :
    isDigitChar (digitChar d) = true
    ∧ (digitChar d).toNat - 48 = d
    ∧ isWsChar (digitChar d) = false
    ∧ digitChar d ≠ (']') ∧ digitChar d ≠ rbraceChar
    ∧ digitChar d ≠ ('n') ∧ digitChar d ≠ ('t') ∧ digitChar d ≠ ('f')
    ∧ digitChar d ≠ ('"') ∧ digitChar d ≠ ('[') ∧ digitChar d ≠ lbraceChar
    ∧ digitChar d ≠ ('-') := by
  interval_cases d <;> exact (by decide)

theorem eq_digitChar_of_isDigit (c : Char) (h : isDigitChar c = true) :
    ∃ d, d < 10 ∧ c = digitChar d := by
  unfold isDigitChar at h
  simp only [Bool.and_eq_true, decide_eq_true_eq] at h
  refine ⟨c.toNat - 48, by omega, ?_⟩
  unfold digitChar
  rw [show 48 + (c.toNat - 48) = c.toNat by omega]
  exact (Char.ofNat_toNat c).symm

theorem isDigit_props (c : Char) (h : isDigitChar c = true) :
    isWsChar c = false
    ∧ c ≠ (']') ∧ c ≠ rbraceChar
    ∧ c ≠ ('n') ∧ c ≠ ('t') ∧ c ≠ ('f')
    ∧ c ≠ ('"') ∧ c ≠ ('[') ∧ c ≠ lbraceChar
    ∧ c ≠ ('-') := by
  obtain ⟨d, hd, rfl⟩ := eq_digitChar_of_isDigit c h
  exact (digitChar_lt10 d hd).2.2

theorem dumpNat_all_digits (n : Nat) : ∀ c ∈ dumpNat n, isDigitChar c = true := by
  intro c hc
  unfold dumpNat at hc
  by_cases h : n = 0
  · simp [h] at hc
    subst hc
    decide
  · simp only [h, if_false, List.mem_map, List.mem_reverse] at hc
    obtain ⟨d, hd, rfl⟩ := hc
    have hlt : d < 10 := Nat.digits_lt_base (by norm_num) hd
    exact (digitChar_lt10 d hlt).1

theorem dumpNat_ne_nil (n : Nat) : dumpNat n ≠ [] := by
  unfold dumpNat
  by_cases h : n = 0
  · simp [h]
  · simp [h, Nat.digits_ne_nil_iff_ne_zero]

theorem dumpInt_ne_nil (i : Int) : dumpInt i ≠ [] := by
  unfold dumpInt
  by_cases h : i < 0 <;> simp [h, dumpNat_ne_nil]

theorem parseDigitsAux_spec (ds : List Char) (hds : ∀ c ∈ ds, isDigitChar c = true) :
    ∀ (rest : List Char), noDigitHead rest = true → ∀ acc : Nat,
      parseDigitsAux acc (ds ++ rest)
        = (ds.foldl (fun a c => a * 10 + (c.toNat - 48)) acc, rest) := by
  induction ds with
  | nil =>
    intro rest hrest acc
    cases rest with
    | nil => rfl
    | cons c t =>
      have hc : isDigitChar c = false := by simpa [noDigitHead] using hrest
      simp [parseDigitsAux, hc]
  | cons c ds ih =>
    intro rest hrest acc
    have hc : isDigitChar c = true := hds c (by simp)
    simp only [List.cons_append, parseDigitsAux, hc, if_true, List.foldl_cons]
    exact ih (fun x hx => hds x (by simp [hx])) rest hrest _

theorem foldl_digitChars (ds : List Nat) (h : ∀ d ∈ ds, d < 10) : ∀ acc : Nat,
    (ds.reverse.map digitChar).foldl (fun a c => a * 10 + (c.toNat - 48)) acc
      = acc * 10 ^ ds.length + Nat.ofDigits 10 ds := by
  induction ds with
  | nil => intro acc; simp [Nat.ofDigits]
  | cons d ds ih =>
    intro acc
    have hd : d < 10 := h d (by simp)
    have hds : ∀ x ∈ ds, x < 10 := fun x hx => h x (by simp [hx])
    rw [List.reverse_cons, List.map_append, List.foldl_append, ih hds acc]
    simp only [List.map_cons, List.map_nil, List.foldl_cons, List.foldl_nil]
    rw [(digitChar_lt10 d hd).2.1, Nat.ofDigits_cons, List.length_cons, pow_succ]
    ring

theorem foldl_dumpNat (n : Nat) :
    (dumpNat n).foldl (fun a c => a * 10 + (c.toNat - 48)) 0 = n := by
  unfold dumpNat
  by_cases h : n = 0
  · simp [h]
  · simp only [h, if_false]
    rw [foldl_digitChars _ (fun d hd => Nat.digits_lt_base (by norm_num) hd) 0]
    simp [Nat.ofDigits_digits]

theorem string_mk_data (s : String) : String.mk s.data = s := rfl

theorem parseStrAux_escape (cs : List Char) : ∀ rest : List Char,
    parseStrAux (escapeChars cs ++ ('"') :: rest) = some (cs, rest) := by
  induction cs with
  | nil => intro rest; simp [escapeChars, parseStrAux]
  | cons c cs ih =>
    intro rest
    simp only [escapeChars, escapeChar, List.append_assoc]
    by_cases h1 : c = '"'
    · subst h1; simp [parseStrAux, unescapeChar, ih]
    · rw [if_neg h1]
      by_cases h2 : c = '\\'
      · subst h2; simp [parseStrAux, unescapeChar, ih]
      · rw [if_neg h2]
        by_cases h3 : c = '\n'
        · subst h3; simp [parseStrAux, unescapeChar, ih]
        · rw [if_neg h3]
          by_cases h4 : c = '\t'
          · subst h4; simp [parseStrAux, unescapeChar, ih]
          · rw [if_neg h4]
            by_cases h5 : c = '\r'
            · subst h5; simp [parseStrAux, unescapeChar, ih]
            · rw [if_neg h5]
              by_cases h6 : c = Char.ofNat 8
              · rw [if_pos h6]
                subst h6
                simp [parseStrAux, unescapeChar, ih]
              · rw [if_neg h6]
                by_cases h7 : c = Char.ofNat 12
                · rw [if_pos h7]
                  subst h7
                  simp [parseStrAux, unescapeChar, ih]
                · rw [if_neg h7]
                  simp [parseStrAux, h1, h2, ih]

theorem parseDigits_dumpNat (n : Nat) (rest : List Char) (hrest : noDigitHead rest = true) :
    parseDigitsAux 0 (dumpNat n ++ rest) = (n, rest) := by
  rw [parseDigitsAux_spec (dumpNat n) (dumpNat_all_digits n) rest hrest 0, foldl_dumpNat]

theorem parseVal_neg_branch (f : Nat) (d : Char) (r2 : List Char)
    (hd : isDigitChar d = true) :
    parseVal (f + 1) ('-' :: d :: r2)
      = some (.num (-((parseDigitsAux 0 (d :: r2)).1 : Int)),
              (parseDigitsAux 0 (d :: r2)).2) := by
  simp [parseVal, skipWs, isWsChar, hd, (show ('-') ≠ lbraceChar by decide)]

theorem parseVal_digit_branch (f : Nat) (c : Char) (r : List Char)
    (hc : isDigitChar c = true) :
    parseVal (f + 1) (c :: r)
      = some (.num (((parseDigitsAux 0 (c :: r)).1 : Int)),
              (parseDigitsAux 0 (c :: r)).2) := by
  obtain ⟨hws, _, _, hn, ht, hf', hq, hbk, hlb, hm⟩ := isDigit_props c hc
  simp [parseVal, skipWs_cons_not c r hws, hn, ht, hf', hq, hbk, hlb, hm, hc]

theorem parseVal_dumpInt (i : Int) (f : Nat) (rest : List Char)
    (hrest : noDigitHead rest = true) :
    parseVal (f + 1) (dumpInt i ++ rest) = some (.num i, rest) := by
  obtain ⟨c0, t0, h0⟩ := List.exists_cons_of_ne_nil (dumpNat_ne_nil i.natAbs)
  have hc0 : isDigitChar c0 = true := by
    apply dumpNat_all_digits
    rw [h0]
    exact List.mem_cons_self _ _
  have hpd : parseDigitsAux 0 (c0 :: (t0 ++ rest)) = (i.natAbs, rest) := by
    have := parseDigits_dumpNat i.natAbs rest hrest
    rwa [h0, List.cons_append] at this
  by_cases hneg : i < 0
  · have harg : dumpInt i ++ rest = '-' :: c0 :: (t0 ++ rest) := by
      simp [dumpInt, hneg, h0]
    rw [harg, parseVal_neg_branch f c0 (t0 ++ rest) hc0, hpd]
    have hi : -((i.natAbs : Int)) = i := by omega
    rw [hi]
  · have harg : dumpInt i ++ rest = c0 :: (t0 ++ rest) := by
      simp [dumpInt, hneg, h0]
    rw [harg, parseVal_digit_branch f c0 (t0 ++ rest) hc0, hpd]
    have hi : ((i.natAbs : Int)) = i := by omega
    rw [hi]

theorem dumpChars_ne_nil (v : Json) : Json.dumpChars v ≠ [] := by
  cases v with
  | num i => exact dumpInt_ne_nil i
  | bool b => cases b <;> simp [Json.dumpChars]
  | null => simp [Json.dumpChars]
  | str s => simp [Json.dumpChars, dumpStr]
  | arr xs => simp [Json.dumpChars]
  | obj kvs => simp [Json.dumpChars]

theorem dumpChars_headProps (v : Json) :
    ∀ c, (Json.dumpChars v).head? = some c →
      isWsChar c = false ∧ c ≠ (']') ∧ c ≠ rbraceChar := by
  intro c hc
  cases v with
  | null =>
    simp [Json.dumpChars] at hc
    subst hc
    refine ⟨by decide, by decide, by decide⟩
  | bool b =>
    cases b <;>
    · simp [Json.dumpChars] at hc
      subst hc
      refine ⟨by decide, by decide, by decide⟩
  | str s =>
    simp [Json.dumpChars, dumpStr] at hc
    subst hc
    refine ⟨by decide, by decide, by decide⟩
  | arr xs =>
    simp [Json.dumpChars] at hc
    subst hc
    refine ⟨by decide, by decide, by decide⟩
  | obj kvs =>
    simp [Json.dumpChars] at hc
    subst hc
    refine ⟨by decide, by decide, by decide⟩
  | num i =>
    by_cases hneg : i < 0
    · have hsh : Json.dumpChars (.num i) = '-' :: dumpNat i.natAbs := by
        simp [Json.dumpChars, dumpInt, hneg]
      rw [hsh] at hc
      simp at hc
      subst hc
      refine ⟨by decide, by decide, by decide⟩
    · obtain ⟨c0, t0, h0⟩ := List.exists_cons_of_ne_nil (dumpNat_ne_nil i.natAbs)
      have hc0 : isDigitChar c0 = true := by
        apply dumpNat_all_digits
        rw [h0]
        exact List.mem_cons_self _ _
      have hsh : Json.dumpChars (.num i) = c0 :: t0 := by
        simp [Json.dumpChars, dumpInt, hneg, h0]
      rw [hsh] at hc
      simp at hc
      subst hc
      obtain ⟨hws, hbr, hbc, _⟩ := isDigit_props c0 hc0
      exact ⟨hws, hbr, hbc⟩

theorem dumpChars_head (v : Json) :
    ∃ c t, Json.dumpChars v = c :: t
      ∧ isWsChar c = false ∧ c ≠ (']') ∧ c ≠ rbraceChar := by
  obtain ⟨c, t, hct⟩ := List.exists_cons_of_ne_nil (dumpChars_ne_nil v)
  have hp := dumpChars_headProps v c (by rw [hct]; rfl)
  exact ⟨c, t, hct, hp.1, hp.2.1, hp.2.2⟩

theorem dump_len_pos (v : Json) : 1 ≤ (Json.dumpChars v).length := by
  obtain ⟨c, t, hd, _, _, _⟩ := dumpChars_head v
  simp [hd]

theorem skipWs_dump (v : Json) (x : List Char) :
    skipWs (Json.dumpChars v ++ x) = Json.dumpChars v ++ x := by
  obtain ⟨c, t, hd, hws, _, _⟩ := dumpChars_head v
  rw [hd, List.cons_append]
  exact skipWs_cons_not _ _ hws

theorem parseVal_ws (f : Nat) (c : Char) (cs : List Char) (h : isWsChar c = true) :
    parseVal f (c :: cs) = parseVal f cs := by
  cases f with
  | zero => rfl
  | succ f => simp only [parseVal, skipWs_cons_ws c cs h]

theorem parseItems_ws (f : Nat) (c : Char) (cs : List Char) (h : isWsChar c = true) :
    parseItems f (c :: cs) = parseItems f cs := by
  cases f with
  | zero => rfl
  | succ f => simp only [parseItems, parseVal_ws f c cs h]

theorem parseFields_ws (f : Nat) (c : Char) (cs : List Char) (h : isWsChar c = true) :
    parseFields f (c :: cs) = parseFields f cs := by
  cases f with
  | zero => rfl
  | succ f => simp only [parseFields, skipWs_cons_ws c cs h]

theorem dumpSep_cons (y : Json) (ys : List Json) :
    Json.dumpSep (y :: ys) = ',' :: ' ' :: Json.dumpItems (y :: ys) := rfl

theorem dumpFieldSep_cons (p : String × Json) (ps : Obj) :
    Json.dumpFieldSep (p :: ps) = ',' :: ' ' :: Json.dumpFields (p :: ps) := by
  obtain ⟨k, v⟩ := p
  rfl

theorem parseVal_arr_branch (f : Nat) (x : Json) (xs : List Json) (rest : List Char) :
    parseVal (f + 1) ('[' :: (Json.dumpItems (x :: xs) ++ rest))
      = (match parseItems f (Json.dumpItems (x :: xs) ++ rest) with
         | some (ys, r) => some (.arr ys, r)
         | none => none) := by
  obtain ⟨c, t, hd, hws, hbr, hbc⟩ := dumpChars_head x
  have hcons : Json.dumpItems (x :: xs) ++ rest = c :: (t ++ (Json.dumpSep xs ++ rest)) := by
    simp [Json.dumpItems, hd]
  simp [parseVal, skipWs_cons_not ('[') _ (by decide), hcons,
        skipWs_cons_not c _ hws, hbr]

theorem parseVal_obj_branch (f : Nat) (k : String) (v : Json) (kvs : Obj)
    (rest : List Char) :
    parseVal (f + 1) (lbraceChar :: (Json.dumpFields ((k, v) :: kvs) ++ rest))
      = (match parseFields f (Json.dumpFields ((k, v) :: kvs) ++ rest) with
         | some (ms, r) => some (.obj ms, r)
         | none => none) := by
  have hcons : Json.dumpFields ((k, v) :: kvs) ++ rest
      = '"' :: ((escapeChars k.data
          ++ ('"' :: ':' :: ' ' :: (Json.dumpChars v ++ (Json.dumpFieldSep kvs ++ rest))))) := by
    simp [Json.dumpFields, dumpStr]
  simp [parseVal, skipWs_cons_not lbraceChar _ (by decide), hcons,
        skipWs_cons_not ('"') _ (by decide),
        (show ('"') ≠ rbraceChar by decide),
        (show lbraceChar ≠ ('n') by decide), (show lbraceChar ≠ ('t') by decide),
        (show lbraceChar ≠ ('f') by decide), (show lbraceChar ≠ ('"') by decide),
        (show lbraceChar ≠ ('[') by decide)]

theorem noDigitHead_cons (c : Char) (z : List Char) (h : isDigitChar c = false) :
    noDigitHead (c :: z) = true := by
  simp [noDigitHead, h]

mutual
theorem rt_val : ∀ (v : Json) (fuel : Nat) (rest : List Char),
    (Json.dumpChars v).length ≤ fuel → noDigitHead rest = true →
    parseVal fuel (Json.dumpChars v ++ rest) = some (v, rest)
  | .null, fuel, rest, hf, _ => by
    cases fuel with
    | zero => exact absurd hf (by simp [Json.dumpChars])
    | succ f => simp [Json.dumpChars, parseVal, skipWs, isWsChar]
  | .bool true, fuel, rest, hf, _ => by
    cases fuel with
    | zero => exact absurd hf (by simp [Json.dumpChars])
    | succ f => simp [Json.dumpChars, parseVal, skipWs, isWsChar]
  | .bool false, fuel, rest, hf, _ => by
    cases fuel with
    | zero => exact absurd hf (by simp [Json.dumpChars])
    | succ f => simp [Json.dumpChars, parseVal, skipWs, isWsChar]
  | .num i, fuel, rest, hf, hrest => by
    cases fuel with
    | zero =>
      have := dump_len_pos (.num i)
      omega
    | succ f => exact parseVal_dumpInt i f rest hrest
  | .str s, fuel, rest, hf, _ => by
    cases fuel with
    | zero =>
      have := dump_len_pos (.str s)
      omega
    | succ f =>
      have harg : Json.dumpChars (.str s) ++ rest
          = '"' :: (escapeChars s.data ++ ('"') :: rest) := by
        simp [Json.dumpChars, dumpStr]
      rw [harg]
      simp [parseVal, skipWs, isWsChar, parseStrAux_escape, string_mk_data]
  | .arr [], fuel, rest, hf, _ => by
    cases fuel with
    | zero => exact absurd hf (by simp [Json.dumpChars, Json.dumpItems])
    | succ f => simp [Json.dumpChars, Json.dumpItems, parseVal, skipWs, isWsChar]
  | .arr (x :: xs), fuel, rest, hf, _ => by
    cases fuel with
    | zero =>
      have := dump_len_pos (.arr (x :: xs))
      omega
    | succ f =>
      have hlen : (Json.dumpItems (x :: xs)).length ≤ f := by
        simp only [Json.dumpChars, List.length_cons] at hf
        omega
      have harg : Json.dumpChars (.arr (x :: xs)) ++ rest
          = '[' :: (Json.dumpItems (x :: xs) ++ rest) := by
        simp [Json.dumpChars]
      rw [harg, parseVal_arr_branch, rt_items x xs f rest hlen]
  | .obj [], fuel, rest, hf, _ => by
    cases fuel with
    | zero => exact absurd hf (by simp [Json.dumpChars, Json.dumpFields])
    | succ f =>
      simp [Json.dumpChars, Json.dumpFields, parseVal,
            skipWs_cons_not lbraceChar _ (by decide),
            (show lbraceChar ≠ ('n') by decide), (show lbraceChar ≠ ('t') by decide),
            (show lbraceChar ≠ ('f') by decide), (show lbraceChar ≠ ('"') by decide),
            (show lbraceChar ≠ ('[') by decide),
            skipWs_cons_not rbraceChar _ (by decide)]
  | .obj ((k, v) :: kvs), fuel, rest, hf, _ => by
    cases fuel with
    | zero =>
      have := dump_len_pos (.obj ((k, v) :: kvs))
      omega
    | succ f =>
      have hlen : (Json.dumpFields ((k, v) :: kvs)).length ≤ f := by
        simp only [Json.dumpChars, List.length_cons] at hf
        omega
      have harg : Json.dumpChars (.obj ((k, v) :: kvs)) ++ rest
          = lbraceChar :: (Json.dumpFields ((k, v) :: kvs) ++ rest) := by
        simp [Json.dumpChars]
      rw [harg, parseVal_obj_branch, rt_fields k v kvs f rest hlen]
termination_by v _ _ _ _ => sizeOf v

theorem rt_items : ∀ (x : Json) (xs : List Json) (fuel : Nat) (rest : List Char),
    (Json.dumpItems (x :: xs)).length ≤ fuel →
    parseItems fuel (Json.dumpItems (x :: xs) ++ rest) = some (x :: xs, rest)
  | x, [], fuel, rest, hf => by
    have hx := dump_len_pos x
    have hlen : (Json.dumpItems [x]).length = (Json.dumpChars x).length + 1 := by
      simp [Json.dumpItems, Json.dumpSep]
    cases fuel with
    | zero => omega
    | succ f =>
      have harg : Json.dumpItems [x] ++ rest
          = Json.dumpChars x ++ (Json.dumpSep ([] : List Json) ++ rest) := by
        simp [Json.dumpItems]
      have hnd : noDigitHead (Json.dumpSep ([] : List Json) ++ rest) = true :=
        noDigitHead_cons _ _ (by decide)
      have hfx : (Json.dumpChars x).length ≤ f := by omega
      have hv := rt_val x f (Json.dumpSep ([] : List Json) ++ rest) hfx hnd
      rw [harg]
      simp only [parseItems, hv]
      simp [Json.dumpSep, skipWs, isWsChar]
  | x, y :: ys, fuel, rest, hf => by
    have hx := dump_len_pos x
    have hsy : (Json.dumpSep (y :: ys)).length
        = 2 + (Json.dumpItems (y :: ys)).length := by
      rw [dumpSep_cons]
      simp
      omega
    have hlen : (Json.dumpItems (x :: y :: ys)).length
        = (Json.dumpChars x).length + (Json.dumpSep (y :: ys)).length := by
      simp [Json.dumpItems]
    cases fuel with
    | zero => omega
    | succ f =>
      have harg : Json.dumpItems (x :: y :: ys) ++ rest
          = Json.dumpChars x ++ (Json.dumpSep (y :: ys) ++ rest) := by
        simp [Json.dumpItems]
      have hnd : noDigitHead (Json.dumpSep (y :: ys) ++ rest) = true := by
        rw [dumpSep_cons, List.cons_append]
        exact noDigitHead_cons _ _ (by decide)
      have hfx : (Json.dumpChars x).length ≤ f := by omega
      have hv := rt_val x f (Json.dumpSep (y :: ys) ++ rest) hfx hnd
      have hfy : (Json.dumpItems (y :: ys)).length ≤ f := by omega
      have hi := rt_items y ys f rest hfy
      rw [harg]
      simp only [parseItems, hv]
      rw [dumpSep_cons]
      simp [skipWs_cons_not (',') _ (by decide),
            parseItems_ws f (' ') _ (by decide), hi]
termination_by x xs _ _ _ => sizeOf x + sizeOf xs + 1

theorem rt_fields : ∀ (k : String) (v : Json) (kvs : Obj) (fuel : Nat) (rest : List Char),
    (Json.dumpFields ((k, v) :: kvs)).length ≤ fuel →
    parseFields fuel (Json.dumpFields ((k, v) :: kvs) ++ rest) = some ((k, v) :: kvs, rest)
  | k, v, [], fuel, rest, hf => by
    have hv0 := dump_len_pos v
    have hlen : (Json.dumpFields [(k, v)]).length
        = (escapeChars k.data).length + 4 + (Json.dumpChars v).length + 1 := by
      simp [Json.dumpFields, dumpStr, Json.dumpFieldSep]
      omega
    cases fuel with
    | zero => omega
    | succ f =>
      have hndv : noDigitHead (Json.dumpFieldSep ([] : Obj) ++ rest) = true :=
        noDigitHead_cons _ _ (by decide)
      have hfv : (Json.dumpChars v).length ≤ f := by omega
      have hval := rt_val v f (Json.dumpFieldSep ([] : Obj) ++ rest) hfv hndv
      have harg : Json.dumpFields [(k, v)] ++ rest
          = '"' :: (escapeChars k.data
              ++ ('"' :: ':' :: ' ' :: (Json.dumpChars v
                  ++ (Json.dumpFieldSep ([] : Obj) ++ rest)))) := by
        simp [Json.dumpFields, dumpStr]
      rw [harg]
      simp only [Json.dumpFieldSep, List.cons_append, List.nil_append] at hval
      simp [parseFields, parseStrAux_escape,
            skipWs_cons_not ('"') _ (by decide),
            skipWs_cons_not (':') _ (by decide),
            skipWs_cons_not rbraceChar _ (by decide),
            Json.dumpFieldSep, parseVal_ws f (' ') _ (by decide), hval,
            string_mk_data, (show rbraceChar ≠ (',') by decide)]
  | k, v, (k2, v2) :: ps, fuel, rest, hf => by
    have hv0 := dump_len_pos v
    have hsy : (Json.dumpFieldSep ((k2, v2) :: ps)).length
        = 2 + (Json.dumpFields ((k2, v2) :: ps)).length := by
      rw [dumpFieldSep_cons]
      simp
      omega
    have hlen : (Json.dumpFields ((k, v) :: (k2, v2) :: ps)).length
        = (escapeChars k.data).length + 4 + (Json.dumpChars v).length
          + (Json.dumpFieldSep ((k2, v2) :: ps)).length := by
      simp [Json.dumpFields, dumpStr]
      omega
    cases fuel with
    | zero => omega
    | succ f =>
      have hndv : noDigitHead (Json.dumpFieldSep ((k2, v2) :: ps) ++ rest) = true := by
        rw [dumpFieldSep_cons, List.cons_append]
        exact noDigitHead_cons _ _ (by decide)
      have hfv : (Json.dumpChars v).length ≤ f := by omega
      have hval := rt_val v f (Json.dumpFieldSep ((k2, v2) :: ps) ++ rest) hfv hndv
      have harg : Json.dumpFields ((k, v) :: (k2, v2) :: ps) ++ rest
          = '"' :: (escapeChars k.data
              ++ ('"' :: ':' :: ' ' :: (Json.dumpChars v
                  ++ (Json.dumpFieldSep ((k2, v2) :: ps) ++ rest)))) := by
        simp [Json.dumpFields, dumpStr]
      have hfy : (Json.dumpFields ((k2, v2) :: ps)).length ≤ f := by omega
      have hrec := rt_fields k2 v2 ps f rest hfy
      rw [harg]
      simp only [dumpFieldSep_cons, List.cons_append] at hval
      simp [parseFields, parseStrAux_escape,
            skipWs_cons_not ('"') _ (by decide),
            skipWs_cons_not (':') _ (by decide),
            skipWs_cons_not (',') _ (by decide),
            parseVal_ws f (' ') _ (by decide), hval, string_mk_data,
            dumpFieldSep_cons, parseFields_ws f (' ') _ (by decide), hrec]
termination_by k v kvs _ _ _ => sizeOf v + sizeOf kvs + 1
end

theorem loads_dumps (v : Json) : Json.loads (Json.dumps v) = some v := by
  unfold Json.loads Json.dumps
  have hrt := rt_val v ((Json.dumpChars v).length + 1) [] (by omega) rfl
  rw [List.append_nil] at hrt
  rw [show (String.mk (Json.dumpChars v)).data = Json.dumpChars v from rfl]
  rw [hrt]
  simp [skipWs]

/-- C7: the serialization codec used for the tracking annotation round-trips:
decoding the serialized form of any document yields a structurally equal
document, so an essence written by `refresh_essence` and read back by
`retrieve_essence` compares equal to the originally computed essence — in
fact, a body whose tracking annotation stores the serialization of `e`
retrieves exactly `e`. -/
theorem dumps_loads_roundtrip :
    (∀ e : Json, Json.loads (Json.dumps e) = some e)
    ∧ (∀ (body : Obj) (pfx : Option String) (e : Json),
        annSlotGet body (lastSeenKey pfx) = some (.str (Json.dumps e)) →
        retrieve_essence body pfx = .ok e) := by
  refine ⟨loads_dumps, fun body pfx e hs => ?_⟩
  have hhas : has_essence_stored body pfx = true := by
    simp [has_essence_stored, hs]
  simp [retrieve_essence, hhas, hs, loads_dumps e]

/-- Witness for C7: a body whose tracking annotation stores the serialized
essence `\x7b"spec": "a"\x7d` retrieves exactly that essence. -/
theorem dumps_loads_roundtrip_witness :
    retrieve_essence
      [(("metadata"), .obj [(("annotations"), .obj
        [((baseLastSeenKey), .str (Json.dumps (.obj [(("spec"), .str ("a"))])))])])] none
      = .ok (.obj [(("spec"), .str ("a"))]) :=
  dumps_loads_roundtrip.2 _ none (.obj [(("spec"), .str ("a"))]) rfl
